import Mathlib

set_option autoImplicit false

/-!
Verification of the `storage` package of go-persista: an in-memory
key-value store (`map[string]Object` guarded by a `sync.RWMutex`) with
per-entry expiry, a background janitor sweep, and snapshot persistence
(`save`/`load`) in gob or json format.

The Go map is embedded as an association list with unique keys; absolute
time (`time.Time`) is embedded as a natural number of nanoseconds, with
`Before` the strict order, exactly as in the source. The file system is a
function from path to open-result; the gob/json codecs of the standard
library are modelled as an abstract faithful encoding (a file is a valid
encoding of a map in one format, or undecodable, or empty), since their
code is outside this repository.
-/

namespace GoPersista

/-- Absolute time instant (models Go `time.Time`), as nanoseconds since the epoch. -/
abbrev Time := Nat

/-- Go `t.Before(u)` on `time.Time`: strict comparison. -/
def timeBefore (t u : Time) : Bool := decide (t < u)

/-- The `Object` struct of the storage package: value bytes plus optional expiry. -/
structure Object where
  data : List Nat
  expires : Option Time
deriving DecidableEq, Repr

/-- The `map[string]Object` held by `Storage`, as an association list.
Go maps hold at most one entry per key; here that is the `Nodup` invariant
on `mapKeys`, shown to be preserved by the operations. -/
abbrev StorageMap := List (String × Object)

/-- Go map lookup `s.storage[key]` (first entry with the key). -/
def mapFind (m : StorageMap) (key : String) : Option Object :=
  match m with
  | [] => none
  | (k, o) :: rest => if k = key then some o else mapFind rest key

/-- Go `delete(s.storage, key)`. -/
def mapDelete (m : StorageMap) (key : String) : StorageMap :=
  match m with
  | [] => []
  | (k, o) :: rest =>
    if k = key then mapDelete rest key else (k, o) :: mapDelete rest key

/-- Go map assignment `s.storage[key] = obj`: replace the entry if the key is
present, otherwise append a new one. -/
def mapInsert (m : StorageMap) (key : String) (obj : Object) : StorageMap :=
  match m with
  | [] => [(key, obj)]
  | (k, o) :: rest =>
    if k = key then (key, obj) :: rest else (k, o) :: mapInsert rest key obj

/-- The keys of the map. -/
def mapKeys (m : StorageMap) : List String := m.map Prod.fst

/-- The expiry test appearing in `Get` and in the janitor loop:
`obj.Expires != nil && obj.Expires.Before(now)`. Note `Before` is strict. -/
def isExpired (obj : Object) (now : Time) : Bool :=
  match obj.expires with
  | none => false
  | some t => timeBefore t now

/-- `Put` (storage.go): unconditional map assignment under the exclusive lock;
total, returns no error. -/
def Put (m : StorageMap) (key : String) (data : List Nat) (expires : Option Time) :
    StorageMap :=
  mapInsert m key { data := data, expires := expires }

/-- `Get` (storage.go): look up `key`; absent gives `(nil, false)`; present and
expired deletes the entry and gives `(nil, false)`; otherwise the data.
Returns the Go result (`none` for not-found) together with the map after the
call. -/
def Get (m : StorageMap) (key : String) (now : Time) :
    Option (List Nat) × StorageMap :=
  match mapFind m key with
  | none => (none, m)
  | some obj =>
    if isExpired obj now then (none, mapDelete m key)
    else (some obj.data, m)

/-- One janitor tick body (storage.go): under the exclusive lock, delete every
entry whose expiry is present and `Before` now, in one pass over the map. -/
def janitorSweep (m : StorageMap) (now : Time) : StorageMap :=
  m.filter (fun p => !isExpired p.2 now)

/-- The two modes of a Go `sync.RWMutex`. -/
inductive LockMode where
  | shared
  | exclusive
deriving DecidableEq, Repr

/-- The lock mode `Get` holds for its whole body: `s.mu.RLock()` with a
deferred `RUnlock` and no other lock acquisition — the eviction `delete` on
the expired path runs under this same shared lock. -/
def getAcquiredLock : LockMode := .shared

/-- The `Format` string type of the storage package. -/
abbrev Format := String

/-- Constant `JSONFormat` of the storage package. -/
def JSONFormat : Format := "json"

/-- Constant `GobFormat` of the storage package. -/
def GobFormat : Format := "gob"

/-- Content of a snapshot file. The standard-library gob/json codecs are
modelled abstractly and atomically: a file is a well-formed encoding of some
map in one format, or a file no decoder of the tried format accepts, or an
empty file (created by `os.Create` but never written to). -/
inductive FileContent where
  | valid (format : Format) (m : StorageMap)
  | corrupt
  | emptyFile
deriving DecidableEq, Repr

/-- What `os.Open` yields on a path: a not-exist error (`os.IsNotExist` true),
some other open error, or the file. -/
inductive OpenResult where
  | notExist
  | openError
  | file (c : FileContent)
deriving DecidableEq, Repr

/-- The file system, as what opening each path yields. -/
abbrev FS := String → OpenResult

/-- `fmt.Sprintf("%s.%s", name, format)`: the snapshot path. -/
def snapshotPath (name : String) (format : Format) : String :=
  name ++ "." ++ format

/-- What the `switch format` in `save` leaves in the freshly created
(truncated) file: json and gob encode the whole map; any other format matches
no case, so the file stays empty. -/
def encodeMap (format : Format) (m : StorageMap) : FileContent :=
  if format = JSONFormat then .valid JSONFormat m
  else if format = GobFormat then .valid GobFormat m
  else .emptyFile

/-- The decoder for `format` applied to a file's content. Decoding is
all-or-nothing in this model: it yields the encoded map, or an error leaving
the target untouched. -/
def decodeMap (format : Format) (c : FileContent) : Except String StorageMap :=
  match c with
  | .valid f m => if f = format then .ok m else .error "decode error"
  | .corrupt => .error "decode error"
  | .emptyFile => .error "decode error"

/-- Writing a file: the path now opens to the new content, every other path is
untouched. `os.Create` truncates, so prior content at the path is gone. -/
def fsWrite (fs : FS) (path : String) (c : FileContent) : FS :=
  fun p => if p = path then .file c else fs p

/-- `save` (storage.go): under the shared lock, create (truncating)
`<name>.<format>`, encode the whole map per the `switch`, and return
`len(s.storage)` with a nil error. `os.Create` failure and encoder I/O
failure are outside the model, so the modelled `save` always returns `ok`. -/
def save (m : StorageMap) (fs : FS) (name : String) (format : Format) :
    Except String Nat × FS :=
  (Except.ok m.length,
   fsWrite fs (snapshotPath name format) (encodeMap format m))

/-- `load` (storage.go): open `<name>.gob`; a non-not-exist open error is
returned; on not-exist fall back to `<name>.json` the same way; when neither
exists return `(0, nil)` leaving the storage as it is. A found file is decoded
with the decoder of its format into `s.storage`; a decode error is returned.
Returns the count and the storage after the call. -/
def load (m : StorageMap) (fs : FS) (name : String) :
    Except String (Nat × StorageMap) :=
  match fs (snapshotPath name GobFormat) with
  | .openError => .error "open gob file error"
  | .file c =>
    match decodeMap GobFormat c with
    | .error _ => .error "gob decode error"
    | .ok m2 => .ok (m2.length, m2)
  | .notExist =>
    match fs (snapshotPath name JSONFormat) with
    | .openError => .error "open json file error"
    | .notExist => .ok (0, m)
    | .file c =>
      match decodeMap JSONFormat c with
      | .error _ => .error "json decode error"
      | .ok m2 => .ok (m2.length, m2)

/-- The load step of `New` when persistence is enabled: `New` starts from an
empty map, calls `load`, and on error only logs it and keeps the (empty) map;
construction never fails. -/
def newStorage (fs : FS) (name : String) : StorageMap :=
  match load [] fs name with
  | .error _ => []
  | .ok (_, m) => m

/-- The `Persistent` option struct (format, interval in nanoseconds, name). -/
structure Persistent where
  format : Format
  interval : Nat
  name : String
deriving DecidableEq, Repr

/-- The default-filling performed by `WithPersistent`: gob when the format is
the empty string, 15s when the interval is zero, "go-persista" when the name
is empty. -/
def withPersistentDefaults (p : Persistent) : Persistent :=
  { format := if p.format = "" then GobFormat else p.format
    interval := if p.interval = 0 then 15000000000 else p.interval
    name := if p.name = "" then "go-persista" else p.name }

/-! ### Lemmas about the map operations -/

theorem mapKeys_cons (k : String) (o : Object) (rest : StorageMap) :
    mapKeys ((k, o) :: rest) = k :: mapKeys rest := rfl

theorem mapFind_mapInsert_self (m : StorageMap) (k : String) (o : Object) :
    mapFind (mapInsert m k o) k = some o := by
  induction m with
  | nil => simp [mapInsert, mapFind]
  | cons p rest ih =>
    obtain ⟨k0, o0⟩ := p
    by_cases h : k0 = k
    · simp [mapInsert, h, mapFind]
    · simp [mapInsert, h, mapFind, ih]

theorem mapFind_mapInsert_ne (m : StorageMap) (k : String) (o : Object)
    (k' : String) (h : k' ≠ k) :
    mapFind (mapInsert m k o) k' = mapFind m k' := by
  induction m with
  | nil => simp [mapInsert, mapFind, Ne.symm h]
  | cons p rest ih =>
    obtain ⟨k0, o0⟩ := p
    by_cases h0 : k0 = k
    · subst h0
      simp [mapInsert, mapFind, Ne.symm h]
    · simp only [mapInsert, if_neg h0]
      by_cases h1 : k0 = k'
      · simp [mapFind, h1]
      · simp [mapFind, h1, ih]

theorem mapFind_mapDelete_self (m : StorageMap) (k : String) :
    mapFind (mapDelete m k) k = none := by
  induction m with
  | nil => simp [mapDelete, mapFind]
  | cons p rest ih =>
    obtain ⟨k0, o0⟩ := p
    by_cases h : k0 = k
    · simp [mapDelete, h, ih]
    · simp [mapDelete, h, mapFind, ih]

theorem mapFind_mapDelete_ne (m : StorageMap) (k : String) (k' : String)
    (h : k' ≠ k) :
    mapFind (mapDelete m k) k' = mapFind m k' := by
  induction m with
  | nil => simp [mapDelete]
  | cons p rest ih =>
    obtain ⟨k0, o0⟩ := p
    by_cases h0 : k0 = k
    · subst h0
      simp [mapDelete, mapFind, Ne.symm h, ih]
    · by_cases h1 : k0 = k'
      · simp [mapDelete, mapFind, h1, h, h0]
      · simp [mapDelete, mapFind, h1, h0, ih]

theorem mem_mapKeys_mapInsert (m : StorageMap) (k : String) (o : Object)
    (x : String) :
    x ∈ mapKeys (mapInsert m k o) ↔ x = k ∨ x ∈ mapKeys m := by
  induction m with
  | nil => simp [mapInsert, mapKeys]
  | cons p rest ih =>
    obtain ⟨k0, o0⟩ := p
    by_cases h : k0 = k
    · subst h
      simp [mapInsert, mapKeys_cons]
    · simp only [mapInsert, if_neg h, mapKeys_cons, List.mem_cons, ih]
      tauto

theorem nodup_mapKeys_mapInsert (m : StorageMap) (k : String) (o : Object)
    (h : (mapKeys m).Nodup) : (mapKeys (mapInsert m k o)).Nodup := by
  induction m with
  | nil => simp [mapInsert, mapKeys]
  | cons p rest ih =>
    obtain ⟨k0, o0⟩ := p
    rw [mapKeys_cons, List.nodup_cons] at h
    by_cases h0 : k0 = k
    · subst h0
      simpa [mapInsert, mapKeys_cons, List.nodup_cons] using h
    · rw [mapInsert, if_neg h0, mapKeys_cons, List.nodup_cons]
      refine ⟨fun hmem => ?_, ih h.2⟩
      rcases (mem_mapKeys_mapInsert rest k o k0).mp hmem with h1 | h1
      · exact h0 h1
      · exact h.1 h1

theorem mapFind_eq_none_iff (m : StorageMap) (key : String) :
    mapFind m key = none ↔ key ∉ mapKeys m := by
  induction m with
  | nil => simp [mapFind, mapKeys]
  | cons p rest ih =>
    obtain ⟨k0, o0⟩ := p
    by_cases h : k0 = key
    · simp [mapFind, h, mapKeys_cons]
    · simp [mapFind, h, mapKeys_cons, ih, Ne.symm h]

theorem mapFind_filter_eq_none (m : StorageMap) (key : String)
    (p : String × Object → Bool) (h : mapFind m key = none) :
    mapFind (m.filter p) key = none := by
  induction m with
  | nil => simp [mapFind]
  | cons q rest ih =>
    obtain ⟨k0, o0⟩ := q
    by_cases h0 : k0 = key
    · simp [mapFind, h0] at h
    · rw [mapFind, if_neg h0] at h
      by_cases hp : p (k0, o0)
      · simp only [List.filter_cons, hp, if_pos]
        rw [mapFind, if_neg h0]
        exact ih h
      · simp only [List.filter_cons]
        rw [if_neg (by simpa using hp)]
        exact ih h

theorem mapFind_janitorSweep (m : StorageMap) (now : Time) (key : String)
    (h : (mapKeys m).Nodup) :
    mapFind (janitorSweep m now) key =
      match mapFind m key with
      | none => none
      | some obj => if isExpired obj now then none else some obj := by
  induction m with
  | nil => simp [janitorSweep, mapFind]
  | cons p rest ih =>
    obtain ⟨k0, o0⟩ := p
    rw [mapKeys_cons, List.nodup_cons] at h
    have hsweep : janitorSweep ((k0, o0) :: rest) now =
        if isExpired o0 now then janitorSweep rest now
        else (k0, o0) :: janitorSweep rest now := by
      by_cases he : isExpired o0 now <;>
        simp [janitorSweep, List.filter_cons, he]
    by_cases h0 : k0 = key
    · subst h0
      by_cases he : isExpired o0 now
      · have hnone : mapFind (janitorSweep rest now) k0 = none := by
          have := mapFind_filter_eq_none rest k0
            (fun p => !isExpired p.2 now)
            ((mapFind_eq_none_iff rest k0).mpr h.1)
          simpa [janitorSweep] using this
        simp [hsweep, he, mapFind, hnone]
      · simp [hsweep, he, mapFind]
    · by_cases he : isExpired o0 now
      · simp [hsweep, he, mapFind, h0, ih h.2]
      · simp [hsweep, he, mapFind, h0, ih h.2]

/-! ### Claim theorems -/

/-- Claim C1, amended: the code's expiry test is `Expires.Before(now)`, which
is strict, so an entry is expired iff its expiry is present and strictly
earlier than now (not `expiresAt ≤ now`). With that: Get on an absent key
returns not-found; on a present entry whose expiry is absent or not earlier
than now it returns the stored value; on a present entry whose expiry is
strictly earlier than now it deletes the entry and returns not-found, and the
key is absent from the map afterward. -/
theorem get_lazy_expiry (m : StorageMap) (key : String) (now : Time) :
    (mapFind m key = none → Get m key now = (none, m)) ∧
    (∀ obj, mapFind m key = some obj →
      ((obj.expires = none ∨ ∃ t, obj.expires = some t ∧ ¬ t < now) →
        Get m key now = (some obj.data, m)) ∧
      (∀ t, obj.expires = some t → t < now →
        Get m key now = (none, mapDelete m key) ∧
        mapFind (Get m key now).2 key = none)) := by
  refine ⟨fun hnone => by simp [Get, hnone], fun obj hobj => ⟨?_, ?_⟩⟩
  · rintro (hne | ⟨t, ht, hnlt⟩)
    · simp [Get, hobj, isExpired, hne]
    · simp [Get, hobj, isExpired, ht, timeBefore, hnlt]
  · intro t ht hlt
    have hexp : isExpired obj now = true := by
      simp [isExpired, ht, timeBefore, hlt]
    exact ⟨by simp [Get, hobj, hexp],
      by simp [Get, hobj, hexp, mapFind_mapDelete_self]⟩

/-- Witness for get_lazy_expiry: a concrete expired entry is deleted and
reported not-found. -/
theorem get_lazy_expiry_witness :
    Get [("k", Object.mk [1] (some 3))] "k" 5 =
      (none, mapDelete [("k", Object.mk [1] (some 3))] "k") ∧
    mapFind (Get [("k", Object.mk [1] (some 3))] "k" 5).2 "k" = none :=
  ((get_lazy_expiry [("k", Object.mk [1] (some 3))] "k" 5).2
    (Object.mk [1] (some 3)) (by decide)).2 3 rfl (by decide)

/-- Claim C1 counterexample: take the entry ("k", value [1], expiry 5) and
now = 5. The expiry is present and `expiresAt ≤ now` holds, so the claim says
Get deletes the entry and returns not-found; the code instead returns the
value and leaves the map unchanged, because its test `Expires.Before(now)` is
strict. -/
theorem get_expiry_boundary_counterexample :
    mapFind [("k", Object.mk [1] (some 5))] "k" =
      some (Object.mk [1] (some 5)) ∧
    (5 : Time) ≤ 5 ∧
    Get [("k", Object.mk [1] (some 5))] "k" 5 =
      (some [1], [("k", Object.mk [1] (some 5))]) := by decide

/-- Claim C2: Put is a total function (no error condition) that
unconditionally overwrites the entry for the key, expiry included, whatever
the prior entry was; other keys are untouched; key-uniqueness is preserved;
and a subsequent Get with no intervening expiry returns the just-written
value and leaves the map unchanged. -/
theorem put_overwrite (m : StorageMap) (key k' : String) (d : List Nat)
    (e : Option Time) (now : Time) (hk : k' ≠ key)
    (hnd : (mapKeys m).Nodup) (hlive : ∀ t, e = some t → now ≤ t) :
    mapFind (Put m key d e) key = some { data := d, expires := e } ∧
    mapFind (Put m key d e) k' = mapFind m k' ∧
    (mapKeys (Put m key d e)).Nodup ∧
    Get (Put m key d e) key now = (some d, Put m key d e) := by
  have hfind : mapFind (Put m key d e) key =
      some { data := d, expires := e } :=
    mapFind_mapInsert_self m key _
  have hexp : isExpired { data := d, expires := e } now = false := by
    cases e with
    | none => simp [isExpired]
    | some t =>
      have h2 : ¬ t < now := not_lt.mpr (hlive t rfl)
      simp [isExpired, timeBefore, h2]
  refine ⟨hfind, mapFind_mapInsert_ne m key _ k' hk,
    nodup_mapKeys_mapInsert m key _ hnd, ?_⟩
  simp [Get, hfind, hexp]

/-- Witness for put_overwrite: overwriting a non-expiring entry with a
future-expiry entry, then reading it back. -/
theorem put_overwrite_witness :
    mapFind (Put [("k", Object.mk [9] none)] "k" [1, 2] (some 10)) "k" =
      some { data := [1, 2], expires := some 10 } ∧
    mapFind (Put [("k", Object.mk [9] none)] "k" [1, 2] (some 10)) "j" =
      mapFind [("k", Object.mk [9] none)] "j" ∧
    (mapKeys (Put [("k", Object.mk [9] none)] "k" [1, 2] (some 10))).Nodup ∧
    Get (Put [("k", Object.mk [9] none)] "k" [1, 2] (some 10)) "k" 3 =
      (some [1, 2], Put [("k", Object.mk [9] none)] "k" [1, 2] (some 10)) :=
  put_overwrite [("k", Object.mk [9] none)] "k" "j" [1, 2] (some 10) 3
    (by decide) (by decide)
    (fun t ht => by
      have h := Option.some.inj ht
      subst h
      decide)

/-- Claim C10: Get's frame condition — the entry at any other key is never
modified; when the key is absent, or present and not expired, the map is
unchanged; and the post-call map is always either the original or the
original with just the looked-up key deleted. -/
theorem get_frame (m : StorageMap) (key k' : String) (now : Time)
    (hk : k' ≠ key) :
    mapFind (Get m key now).2 k' = mapFind m k' ∧
    (mapFind m key = none → (Get m key now).2 = m) ∧
    (∀ obj, mapFind m key = some obj → isExpired obj now = false →
      (Get m key now).2 = m) ∧
    ((Get m key now).2 = m ∨ (Get m key now).2 = mapDelete m key) := by
  rcases hfind : mapFind m key with _ | obj
  · refine ⟨by simp [Get, hfind], fun _ => by simp [Get, hfind], ?_,
      Or.inl (by simp [Get, hfind])⟩
    intro obj hobj _
    exact absurd hobj (by simp)
  · by_cases hexp : isExpired obj now
    · refine ⟨?_, fun hnone => absurd hnone (by simp), ?_, ?_⟩
      · simp [Get, hfind, hexp, mapFind_mapDelete_ne m key k' hk]
      · intro obj2 hobj2 hexp2
        injection hobj2 with h
        subst h
        simp [hexp] at hexp2
      · exact Or.inr (by simp [Get, hfind, hexp])
    · refine ⟨by simp [Get, hfind, hexp], fun _ => by simp [Get, hfind, hexp],
        fun _ _ _ => by simp [Get, hfind, hexp],
        Or.inl (by simp [Get, hfind, hexp])⟩

/-- Witness for get_frame: Get on an expired key leaves the other entry
intact. -/
theorem get_frame_witness :
    mapFind (Get [("a", Object.mk [1] (some 2)), ("b", Object.mk [3] none)]
      "a" 9).2 "b" =
      mapFind [("a", Object.mk [1] (some 2)), ("b", Object.mk [3] none)] "b" ∧
    (mapFind [("a", Object.mk [1] (some 2)), ("b", Object.mk [3] none)] "a" =
      none →
      (Get [("a", Object.mk [1] (some 2)), ("b", Object.mk [3] none)]
        "a" 9).2 =
        [("a", Object.mk [1] (some 2)), ("b", Object.mk [3] none)]) ∧
    (∀ obj,
      mapFind [("a", Object.mk [1] (some 2)), ("b", Object.mk [3] none)] "a" =
        some obj →
      isExpired obj 9 = false →
      (Get [("a", Object.mk [1] (some 2)), ("b", Object.mk [3] none)]
        "a" 9).2 =
        [("a", Object.mk [1] (some 2)), ("b", Object.mk [3] none)]) ∧
    ((Get [("a", Object.mk [1] (some 2)), ("b", Object.mk [3] none)]
        "a" 9).2 =
      [("a", Object.mk [1] (some 2)), ("b", Object.mk [3] none)] ∨
     (Get [("a", Object.mk [1] (some 2)), ("b", Object.mk [3] none)]
        "a" 9).2 =
      mapDelete [("a", Object.mk [1] (some 2)), ("b", Object.mk [3] none)]
        "a") :=
  get_frame [("a", Object.mk [1] (some 2)), ("b", Object.mk [3] none)]
    "a" "b" 9 (by decide)

/-- Claim C4, amended: on a janitor tick the single-pass sweep removes
exactly the entries whose expiry is present and strictly earlier than now
(the code's test is the strict `Expires.Before(now)`, not `≤`), and leaves
every entry with no expiry or with expiry not earlier than now unchanged. -/
theorem janitor_sweep_spec (m : StorageMap) (now : Time) (key : String)
    (h : (mapKeys m).Nodup) :
    mapFind (janitorSweep m now) key =
      match mapFind m key with
      | none => none
      | some obj =>
        match obj.expires with
        | none => some obj
        | some t => if t < now then none else some obj := by
  rw [mapFind_janitorSweep m now key h]
  rcases mapFind m key with _ | obj
  · rfl
  · rcases ho : obj.expires with _ | t
    · simp [isExpired, ho]
    · by_cases hlt : t < now <;> simp [isExpired, ho, timeBefore, hlt]

/-- Witness for janitor_sweep_spec on a two-entry map: the strictly expired
entry is swept, the never-expiring one kept. -/
theorem janitor_sweep_spec_witness :
    mapFind (janitorSweep
      [("a", Object.mk [1] (some 2)), ("b", Object.mk [3] none)] 5) "a" =
      (match mapFind
          [("a", Object.mk [1] (some 2)), ("b", Object.mk [3] none)] "a" with
      | none => none
      | some obj =>
        match obj.expires with
        | none => some obj
        | some t => if t < 5 then none else some obj) :=
  janitor_sweep_spec
    [("a", Object.mk [1] (some 2)), ("b", Object.mk [3] none)] 5 "a"
    (by decide)

/-- Claim C4 counterexample: an entry whose expiry equals now satisfies the
claim's `expiresAt ≤ now`, so the claim says the sweep removes it; the sweep
keeps it, because the code's test `Expires.Before(now)` is strict. -/
theorem janitor_sweep_boundary_counterexample :
    (5 : Time) ≤ 5 ∧
    janitorSweep [("k", Object.mk [1] (some 5))] 5 =
      [("k", Object.mk [1] (some 5))] := by decide

/-- Claim C8: Get's body holds the shared lock (`s.mu.RLock()` with deferred
`RUnlock`) for the whole call — `getAcquiredLock` is `shared` — yet a call on
an expired key mutates the map (the entry is deleted). The escalation to an
exclusive lock before mutating that the claim requires never happens: the
eviction `delete` runs under the read lock, a data race with concurrent
readers. -/
theorem get_deletes_under_shared_lock :
    getAcquiredLock = LockMode.shared ∧
    (Get [("k", Object.mk [1] (some 3))] "k" 9).2 = [] ∧
    [("k", Object.mk [1] (some 3))] ≠ ([] : StorageMap) := by decide

/-- Helper: what the save switch writes for the json format. -/
theorem encodeMap_json (m : StorageMap) :
    encodeMap JSONFormat m = .valid JSONFormat m := by
  simp [encodeMap]

/-- Helper: what the save switch writes for the gob format. -/
theorem encodeMap_gob (m : StorageMap) :
    encodeMap GobFormat m = .valid GobFormat m := by
  have h : GobFormat ≠ JSONFormat := by decide
  simp [encodeMap, h]

/-- Claim C5: for the supported formats, save writes an encoding of the
entire map — expired entries included, nothing filtered — to
`<name>.<format>`, overwriting whatever that path held, leaves every other
path untouched, and returns the full map size with a nil error. -/
theorem save_whole_map (m : StorageMap) (fs : FS) (name : String)
    (format : Format) (hf : format = JSONFormat ∨ format = GobFormat) :
    (save m fs name format).1 = Except.ok m.length ∧
    (save m fs name format).2 (snapshotPath name format) =
      .file (.valid format m) ∧
    (∀ p, p ≠ snapshotPath name format →
      (save m fs name format).2 p = fs p) := by
  refine ⟨rfl, ?_, fun p hp => by simp [save, fsWrite, hp]⟩
  rcases hf with hf | hf <;> subst hf <;>
    simp [save, fsWrite, encodeMap_json, encodeMap_gob]

/-- Witness for save_whole_map: a map holding an already-expired entry is
saved whole in gob format. -/
theorem save_whole_map_witness :
    (save [("k", Object.mk [1] (some 2))] (fun _ => OpenResult.notExist)
        "db" GobFormat).1 =
      Except.ok [("k", Object.mk [1] (some 2))].length ∧
    (save [("k", Object.mk [1] (some 2))] (fun _ => OpenResult.notExist)
        "db" GobFormat).2 (snapshotPath "db" GobFormat) =
      .file (.valid GobFormat [("k", Object.mk [1] (some 2))]) ∧
    (∀ p, p ≠ snapshotPath "db" GobFormat →
      (save [("k", Object.mk [1] (some 2))] (fun _ => OpenResult.notExist)
        "db" GobFormat).2 p = (fun _ => OpenResult.notExist) p) :=
  save_whole_map [("k", Object.mk [1] (some 2))] (fun _ => OpenResult.notExist)
    "db" GobFormat (Or.inr rfl)

/-- Claim C9: for any format other than "json" and "gob", save still creates
(truncating) the file `<name>.<format>` — which stays empty, since no case of
the switch matches — and returns the full map size with a nil error, never
checking format validity; and `WithPersistent` substitutes the gob default
only when the format is the empty string. -/
theorem save_unknown_format (m : StorageMap) (fs : FS) (name : String)
    (format : Format) (h1 : format ≠ JSONFormat) (h2 : format ≠ GobFormat) :
    (save m fs name format).1 = Except.ok m.length ∧
    (save m fs name format).2 (snapshotPath name format) = .file .emptyFile ∧
    (∀ p : Persistent, (withPersistentDefaults p).format =
      if p.format = "" then GobFormat else p.format) := by
  refine ⟨rfl, ?_, fun p => rfl⟩
  simp [save, fsWrite, encodeMap, h1, h2]

/-- Witness for save_unknown_format: format "xml" writes an empty file and
still reports one entry saved. -/
theorem save_unknown_format_witness :
    (save [("k", Object.mk [1] none)] (fun _ => OpenResult.notExist)
        "db" "xml").1 =
      Except.ok [("k", Object.mk [1] none)].length ∧
    (save [("k", Object.mk [1] none)] (fun _ => OpenResult.notExist)
        "db" "xml").2 (snapshotPath "db" "xml") = .file .emptyFile ∧
    (∀ p : Persistent, (withPersistentDefaults p).format =
      if p.format = "" then GobFormat else p.format) :=
  save_unknown_format [("k", Object.mk [1] none)]
    (fun _ => OpenResult.notExist) "db" "xml" (by decide) (by decide)

/-- Claim C6: load opens `<name>.gob` first; exactly on a not-exist error it
falls back to `<name>.json`; when neither exists it succeeds with zero
entries, leaving the storage it was given (empty at startup); a non-not-exist
open failure on either path, or a file that exists but does not decode, is an
error returned to the caller. -/
theorem load_fallback (m0 : StorageMap) (fs : FS) (name : String) :
    (∀ mg, fs (snapshotPath name GobFormat) = .file (.valid GobFormat mg) →
      load m0 fs name = .ok (mg.length, mg)) ∧
    (fs (snapshotPath name GobFormat) = .notExist →
      ∀ mj, fs (snapshotPath name JSONFormat) = .file (.valid JSONFormat mj) →
        load m0 fs name = .ok (mj.length, mj)) ∧
    (fs (snapshotPath name GobFormat) = .notExist →
      fs (snapshotPath name JSONFormat) = .notExist →
        load m0 fs name = .ok (0, m0)) ∧
    (fs (snapshotPath name GobFormat) = .openError →
      ∃ e, load m0 fs name = .error e) ∧
    (fs (snapshotPath name GobFormat) = .notExist →
      fs (snapshotPath name JSONFormat) = .openError →
        ∃ e, load m0 fs name = .error e) ∧
    (∀ c e, fs (snapshotPath name GobFormat) = .file c →
      decodeMap GobFormat c = .error e →
      ∃ e2, load m0 fs name = .error e2) ∧
    (∀ c e, fs (snapshotPath name GobFormat) = .notExist →
      fs (snapshotPath name JSONFormat) = .file c →
      decodeMap JSONFormat c = .error e →
      ∃ e2, load m0 fs name = .error e2) := by
  refine ⟨?_, ?_, ?_, ?_, ?_, ?_, ?_⟩
  · intro mg hg
    simp [load, hg, decodeMap]
  · intro hg mj hj
    simp [load, hg, hj, decodeMap]
  · intro hg hj
    simp [load, hg, hj]
  · intro hg
    exact ⟨"open gob file error", by simp [load, hg]⟩
  · intro hg hj
    exact ⟨"open json file error", by simp [load, hg, hj]⟩
  · intro c e hg hdec
    exact ⟨"gob decode error", by simp [load, hg, hdec]⟩
  · intro c e hg hj hdec
    exact ⟨"json decode error", by simp [load, hg, hj, hdec]⟩

/-- Witness for load_fallback on the empty file system: neither snapshot
exists, so load reports zero entries and no error. -/
theorem load_fallback_witness :
    load [] (fun _ => OpenResult.notExist) "db" = .ok (0, []) :=
  ((load_fallback [] (fun _ => OpenResult.notExist) "db").2.2.1) rfl rfl

/-- Claim C7: when the snapshot file load settles on exists but does not
decode, load returns an error to its caller, and the constructor — which
only logs that error — continues with the empty map, so no entries remain
from the failed load. (The standard-library decoders are modelled as atomic:
a failing decode populates nothing.) -/
theorem load_decode_error (fs : FS) (name : String)
    (h : fs (snapshotPath name GobFormat) = .file .corrupt ∨
      (fs (snapshotPath name GobFormat) = .notExist ∧
        fs (snapshotPath name JSONFormat) = .file .corrupt)) :
    (∃ e, load [] fs name = .error e) ∧ newStorage fs name = [] := by
  rcases h with hg | ⟨hg, hj⟩
  · have hload : load [] fs name = .error "gob decode error" := by
      simp [load, hg, decodeMap]
    exact ⟨⟨"gob decode error", hload⟩, by simp [newStorage, hload]⟩
  · have hload : load [] fs name = .error "json decode error" := by
      simp [load, hg, hj, decodeMap]
    exact ⟨⟨"json decode error", hload⟩, by simp [newStorage, hload]⟩

/-- Witness for load_decode_error: every path opens to an undecodable file;
load errors and the constructed storage is empty. -/
theorem load_decode_error_witness :
    (∃ e, load [] (fun _ => OpenResult.file .corrupt) "db" = .error e) ∧
    newStorage (fun _ => OpenResult.file .corrupt) "db" = [] :=
  load_decode_error (fun _ => OpenResult.file .corrupt) "db" (Or.inl rfl)

/-- Helper: the gob and json snapshot paths for one name differ (their
lengths differ). -/
theorem snapshotPath_gob_ne_json (name : String) :
    snapshotPath name GobFormat ≠ snapshotPath name JSONFormat := by
  intro h
  have hlen := congrArg String.length h
  simp only [snapshotPath, String.length_append] at hlen
  have h3 : (GobFormat : Format).length = 3 := rfl
  have h4 : (JSONFormat : Format).length = 4 := rfl
  rw [h3, h4] at hlen
  omega

/-- Claim C3: starting from a file system with no snapshot files, saving the
whole store in either supported format and then loading under the same name
into a fresh empty store yields exactly the same entries — same keys, same
value bytes, same expiry. -/
theorem save_load_roundtrip (m : StorageMap) (name : String) (format : Format)
    (hf : format = JSONFormat ∨ format = GobFormat) :
    load [] (save m (fun _ => OpenResult.notExist) name format).2 name =
      .ok (m.length, m) := by
  rcases hf with hf | hf <;> subst hf
  · have hne := snapshotPath_gob_ne_json name
    simp [save, load, fsWrite, encodeMap_json, hne, decodeMap]
  · simp [save, load, fsWrite, encodeMap_gob, decodeMap]

/-- Witness for save_load_roundtrip: a store with one expired entry with
arbitrary bytes survives a json save/load round trip verbatim. -/
theorem save_load_roundtrip_witness :
    load [] (save [("k", Object.mk [0, 255] (some 7))]
        (fun _ => OpenResult.notExist) "db" JSONFormat).2 "db" =
      .ok ([("k", Object.mk [0, 255] (some 7))].length,
        [("k", Object.mk [0, 255] (some 7))]) :=
  save_load_roundtrip [("k", Object.mk [0, 255] (some 7))] "db" JSONFormat
    (Or.inl rfl)

end GoPersista
